import Mathlib

set_option maxHeartbeats 1000000

/-- Item record shared by the storefront pages: a product or PC component offered by
one retailer, with the six fields common to the Component and Product interfaces
(the optional display-only specs mapping is omitted as it never enters the logic). -/
structure Component where
  name : String
  price : String
  image : String
  availability : String
  source : String
  url : String
deriving DecidableEq, Repr

/-- Product record of the home page; it has exactly the fields of Component. -/
abbrev Product := Component

/-- Model of the JavaScript call s.toLowerCase(): each character is lower-cased
individually (ordinal, locale-insensitive lowering; non-letter characters pass
through unchanged). -/
def jsToLower (s : String) : String := (s.toList.map Char.toLower).asString

/-- Model of the JavaScript call s.trim(): leading and trailing whitespace
characters are removed. -/
def jsTrim (s : String) : String :=
  (((s.toList.dropWhile Char.isWhitespace).reverse.dropWhile Char.isWhitespace).reverse).asString

/-- Model of the JavaScript call s.startsWith(pre): pre is a prefix of s as a
sequence of characters. -/
def jsStartsWith (s pre : String) : Bool := decide (pre.toList <+: s.toList)

/-- Model of the JavaScript call s.includes(sub): sub occurs contiguously in s as a
sequence of characters. -/
def jsIncludes (s sub : String) : Bool := decide (sub.toList <:+: s.toList)

/-- State built up by prioritizeExactMatches: the four match-quality arrays plus the
set (modelled as an insertion-ordered duplicate-free list) of sources that already
have an exact match. -/
structure RankState where
  exactMatches : List Component
  sourcesWithExactMatches : List String
  startsWithMatches : List Component
  containsMatches : List Component
  otherMatches : List Component
deriving DecidableEq, Repr

/-- Model of JavaScript Set.add on the insertion-ordered source set. -/
def addSource (sources : List String) (s : String) : List String :=
  if s ∈ sources then sources else sources ++ [s]

/-- First forEach pass of prioritizeExactMatches: push every component whose
lower-cased name equals the normalized query and record its source. -/
def firstPass (components : List Component) (normalizedQuery : String) :
    List Component × List String :=
  components.foldl
    (fun acc component =>
      if jsToLower component.name = normalizedQuery then
        (acc.1 ++ [component], addSource acc.2 component.source)
      else acc)
    ([], [])

/-- Body of the second forEach pass of prioritizeExactMatches: skip components
already pushed into exactMatches, then classify the rest in priority order
(exact match from a source not seen yet, starts-with, contains, other). -/
def secondPassStep (normalizedQuery : String) (st : RankState) (component : Component) :
    RankState :=
  if component ∈ st.exactMatches then st
  else if jsToLower component.name = normalizedQuery ∧
      component.source ∉ st.sourcesWithExactMatches then
    { st with exactMatches := st.exactMatches ++ [component],
              sourcesWithExactMatches := addSource st.sourcesWithExactMatches component.source }
  else if jsStartsWith (jsToLower component.name) normalizedQuery then
    { st with startsWithMatches := st.startsWithMatches ++ [component] }
  else if jsIncludes (jsToLower component.name) normalizedQuery then
    { st with containsMatches := st.containsMatches ++ [component] }
  else
    { st with otherMatches := st.otherMatches ++ [component] }

/-- Both passes of prioritizeExactMatches; the query is lower-cased then trimmed,
exactly as in the source (the component names are only lower-cased). -/
def rankBuckets (components : List Component) (query : String) : RankState :=
  let normalizedQuery := jsTrim (jsToLower query)
  let fp := firstPass components normalizedQuery
  components.foldl (secondPassStep normalizedQuery)
    { exactMatches := fp.1, sourcesWithExactMatches := fp.2,
      startsWithMatches := [], containsMatches := [], otherMatches := [] }

/-- prioritizeExactMatches from the component-selection page: run both passes and
combine the four groups in priority order. -/
def prioritizeExactMatches (components : List Component) (query : String) :
    List Component :=
  let st := rankBuckets components query
  st.exactMatches ++ st.startsWithMatches ++ st.containsMatches ++ st.otherMatches

/-- applyFilters from the component-selection page: optional source and availability
filters, then exact-match prioritization when the search query is non-blank. -/
def applyFilters (componentsToFilter : List Component) (selectedSource : Option String)
    (selectedAvailability : Option String) (searchQuery : String) : List Component :=
  let result := componentsToFilter
  let result :=
    match selectedSource with
    | some s => result.filter (fun component => component.source == s)
    | none => result
  let result :=
    match selectedAvailability with
    | some a => result.filter (fun component => component.availability == a)
    | none => result
  if (jsTrim searchQuery).isEmpty then result else prioritizeExactMatches result searchQuery

/-- Ranker entry point of the spec: applyFilters with no source or availability
filter selected. -/
def rank (items : List Component) (query : String) : List Component :=
  applyFilters items none none query

/-- Display grouping on the component-selection page: the three search sections
(exact, similar, other related) filter the ranked list by comparing the
lower-cased name with the lower-cased (untrimmed) search query. -/
def categorize (filteredComponents : List Component) (searchQuery : String) :
    List Component × List Component × List Component :=
  (filteredComponents.filter (fun c => jsToLower c.name == jsToLower searchQuery),
   filteredComponents.filter (fun c =>
     jsStartsWith (jsToLower c.name) (jsToLower searchQuery) &&
       !(jsToLower c.name == jsToLower searchQuery)),
   filteredComponents.filter (fun c =>
     !(jsStartsWith (jsToLower c.name) (jsToLower searchQuery)) &&
       !(jsToLower c.name == jsToLower searchQuery)))

/-- addToCompare from the home page: append the product unless an entry with the
same name and source is already present. -/
def addToCompare (compareList : List Product) (product : Product) : List Product :=
  if compareList.any (fun item => item.name == product.name && item.source == product.source)
  then compareList
  else compareList ++ [product]

/-- Outcome of renderPrice: either a current price together with a struck-through
original price, or the raw price string shown verbatim. -/
inductive PriceDisplay where
  | dual (current original : String)
  | plain (price : String)
deriving DecidableEq, Repr

/-- Model of JavaScript String.split on a one-character separator. -/
def splitChar (m : Char) : List Char → List (List Char)
  | [] => [[]]
  | c :: cs =>
    match splitChar m cs with
    | [] => [[c]]
    | r :: rs => if c = m then [] :: r :: rs else (c :: r) :: rs

/-- Model of JavaScript price.split(marker) for the one-character currency marker. -/
def jsSplit (s : String) (m : Char) : List String :=
  (splitChar m s.toList).map (fun l => l.asString)

/-- renderPrice from the product card: when the currency marker is present and the
split yields more than two segments, show the first two segments that are
non-blank after trimming as the current and the struck-through original price;
otherwise show the price string verbatim. -/
def renderPrice (price : String) : PriceDisplay :=
  if jsIncludes price "৳" && decide ((jsSplit price '৳').length > 2) then
    let prices := (jsSplit price '৳').filter (fun p => !(jsTrim p).isEmpty)
    if 2 ≤ prices.length then
      PriceDisplay.dual (jsTrim (prices.getD 0 "")) (jsTrim (prices.getD 1 ""))
    else PriceDisplay.plain price
  else PriceDisplay.plain price

/-- Tier-1 test of prioritizeExactMatches: the lower-cased name equals the
normalized query. -/
def isExactFor (nq : String) (c : Component) : Bool := decide (jsToLower c.name = nq)

/-- Tier-2 test of prioritizeExactMatches: not exact, and the lower-cased name
starts with the normalized query. -/
def isStartsFor (nq : String) (c : Component) : Bool :=
  !(isExactFor nq c) && jsStartsWith (jsToLower c.name) nq

/-- Tier-3 test of prioritizeExactMatches: neither exact nor starts-with, and the
lower-cased name contains the normalized query. -/
def isContainsFor (nq : String) (c : Component) : Bool :=
  !(isExactFor nq c) && !(jsStartsWith (jsToLower c.name) nq) && jsIncludes (jsToLower c.name) nq

/-- Tier-4 test of prioritizeExactMatches: the lower-cased name neither equals,
starts with, nor contains the normalized query. -/
def isOtherFor (nq : String) (c : Component) : Bool :=
  !(isExactFor nq c) && !(jsStartsWith (jsToLower c.name) nq) && !(jsIncludes (jsToLower c.name) nq)

/-- Normalization as worded in the spec: trim leading and trailing whitespace and
lower-case (applied to both the query and the item names). -/
def specNormalize (s : String) : String := jsTrim (jsToLower s)

/-- Exact-match test as worded in the spec: spec-normalized name equals the
spec-normalized query. -/
def specExact (nq : String) (c : Component) : Bool := decide (specNormalize c.name = nq)

/-- Tier 1 as worded in the spec: the first item (in input order) achieving an
exact match for each distinct source; later same-source exact matches are left
for re-testing against tiers 2 to 4. -/
def specTier1 (items : List Component) (nq : String) : List Component :=
  (items.foldl
    (fun (acc : List Component × List String) c =>
      if specExact nq c = true ∧ c.source ∉ acc.2 then (acc.1 ++ [c], acc.2 ++ [c.source])
      else acc)
    ([], [])).1

/-- Four-tier ordering of rank as worded in the spec: the capped exact-priority
tier, then starts-with, contains and other among the remaining items, each tier
preserving input order. Written from the wording of the spec, for comparison
against the behaviour of the code. -/
def specRank (items : List Component) (query : String) : List Component :=
  if (jsTrim query).isEmpty then items else
  let nq := specNormalize query
  let t1 := specTier1 items nq
  let rest := items.filter (fun c => decide (c ∉ t1))
  t1 ++ rest.filter (fun c => jsStartsWith (specNormalize c.name) nq)
     ++ rest.filter (fun c =>
          !(jsStartsWith (specNormalize c.name) nq) && jsIncludes (specNormalize c.name) nq)
     ++ rest.filter (fun c =>
          !(jsStartsWith (specNormalize c.name) nq) && !(jsIncludes (specNormalize c.name) nq))

theorem isStartsFor_true_iff {nq : String} {c : Component} :
    isStartsFor nq c = true ↔
      isExactFor nq c = false ∧ jsStartsWith (jsToLower c.name) nq = true := by
  simp [isStartsFor]

theorem isContainsFor_true_iff {nq : String} {c : Component} :
    isContainsFor nq c = true ↔
      isExactFor nq c = false ∧ jsStartsWith (jsToLower c.name) nq = false ∧
        jsIncludes (jsToLower c.name) nq = true := by
  simp [isContainsFor, and_assoc]

theorem isOtherFor_true_iff {nq : String} {c : Component} :
    isOtherFor nq c = true ↔
      isExactFor nq c = false ∧ jsStartsWith (jsToLower c.name) nq = false ∧
        jsIncludes (jsToLower c.name) nq = false := by
  simp [isOtherFor, and_assoc]

theorem firstPass_fst (nq : String) (L : List Component) :
    (firstPass L nq).1 = L.filter (isExactFor nq) := by
  have aux : ∀ (M : List Component) (E : List Component) (S : List String),
      (M.foldl
        (fun acc component =>
          if jsToLower component.name = nq then
            (acc.1 ++ [component], addSource acc.2 component.source)
          else acc)
        (E, S)).1 = E ++ M.filter (isExactFor nq) := by
    intro M
    induction M with
    | nil => intro E S; simp
    | cons x xs ih =>
      intro E S
      by_cases h : jsToLower x.name = nq
      · simp only [List.foldl_cons, if_pos h, List.filter_cons]
        rw [ih]
        simp [isExactFor, h]
      · simp only [List.foldl_cons, if_neg h, List.filter_cons]
        rw [ih]
        simp [isExactFor, h]
  simpa [firstPass] using aux L [] []

theorem secondPass_foldl (nq : String) :
    ∀ (M : List Component) (E : List Component) (S : List String) (sw co ot : List Component),
      (∀ c ∈ M, (c ∈ E ↔ isExactFor nq c = true)) →
      M.foldl (secondPassStep nq) ⟨E, S, sw, co, ot⟩ =
        ⟨E, S, sw ++ M.filter (isStartsFor nq), co ++ M.filter (isContainsFor nq),
          ot ++ M.filter (isOtherFor nq)⟩ := by
  intro M
  induction M with
  | nil => intro E S sw co ot _; simp
  | cons x xs ih =>
    intro E S sw co ot h
    have hx := h x (List.mem_cons_self x xs)
    have hxs : ∀ c ∈ xs, (c ∈ E ↔ isExactFor nq c = true) :=
      fun c hc => h c (List.mem_cons_of_mem _ hc)
    rw [List.foldl_cons]
    by_cases hE : x ∈ E
    · have hex : isExactFor nq x = true := hx.mp hE
      have h1 : secondPassStep nq ⟨E, S, sw, co, ot⟩ x = ⟨E, S, sw, co, ot⟩ := by
        simp [secondPassStep, hE]
      have hsw : isStartsFor nq x = false := by simp [isStartsFor, hex]
      have hco : isContainsFor nq x = false := by simp [isContainsFor, hex]
      have hot : isOtherFor nq x = false := by simp [isOtherFor, hex]
      rw [h1, ih E S sw co ot hxs]
      simp [List.filter_cons, hsw, hco, hot]
    · have hex : isExactFor nq x = false := by
        cases hb : isExactFor nq x with
        | false => rfl
        | true => exact absurd (hx.mpr hb) hE
      have hname : ¬(jsToLower x.name = nq) := by
        simpa [isExactFor] using hex
      cases hsw : jsStartsWith (jsToLower x.name) nq with
      | true =>
        have h1 : secondPassStep nq ⟨E, S, sw, co, ot⟩ x = ⟨E, S, sw ++ [x], co, ot⟩ := by
          simp [secondPassStep, hE, hname, hsw]
        have hs : isStartsFor nq x = true := by simp [isStartsFor, hex, hsw]
        have hco : isContainsFor nq x = false := by simp [isContainsFor, hsw]
        have hot : isOtherFor nq x = false := by simp [isOtherFor, hsw]
        rw [h1, ih E S (sw ++ [x]) co ot hxs]
        simp [List.filter_cons, hs, hco, hot]
      | false =>
        cases hin : jsIncludes (jsToLower x.name) nq with
        | true =>
          have h1 : secondPassStep nq ⟨E, S, sw, co, ot⟩ x = ⟨E, S, sw, co ++ [x], ot⟩ := by
            simp [secondPassStep, hE, hname, hsw, hin]
          have hs : isStartsFor nq x = false := by simp [isStartsFor, hsw]
          have hco : isContainsFor nq x = true := by simp [isContainsFor, hex, hsw, hin]
          have hot : isOtherFor nq x = false := by simp [isOtherFor, hin]
          rw [h1, ih E S sw (co ++ [x]) ot hxs]
          simp [List.filter_cons, hs, hco, hot]
        | false =>
          have h1 : secondPassStep nq ⟨E, S, sw, co, ot⟩ x = ⟨E, S, sw, co, ot ++ [x]⟩ := by
            simp [secondPassStep, hE, hname, hsw, hin]
          have hs : isStartsFor nq x = false := by simp [isStartsFor, hsw]
          have hco : isContainsFor nq x = false := by simp [isContainsFor, hin]
          have hot : isOtherFor nq x = true := by simp [isOtherFor, hex, hsw, hin]
          rw [h1, ih E S sw co (ot ++ [x]) hxs]
          simp [List.filter_cons, hs, hco, hot]

theorem rankBuckets_eq (L : List Component) (q : String) :
    rankBuckets L q =
      ⟨L.filter (isExactFor (jsTrim (jsToLower q))),
       (firstPass L (jsTrim (jsToLower q))).2,
       L.filter (isStartsFor (jsTrim (jsToLower q))),
       L.filter (isContainsFor (jsTrim (jsToLower q))),
       L.filter (isOtherFor (jsTrim (jsToLower q)))⟩ := by
  have h0 : rankBuckets L q =
      L.foldl (secondPassStep (jsTrim (jsToLower q)))
        ⟨(firstPass L (jsTrim (jsToLower q))).1, (firstPass L (jsTrim (jsToLower q))).2,
          [], [], []⟩ := rfl
  rw [h0, firstPass_fst,
    secondPass_foldl (jsTrim (jsToLower q)) L _ _ [] [] []
      (fun c hc => by simp [List.mem_filter, hc])]
  simp

theorem prioritizeExactMatches_eq (L : List Component) (q : String) :
    prioritizeExactMatches L q =
      L.filter (isExactFor (jsTrim (jsToLower q))) ++
        L.filter (isStartsFor (jsTrim (jsToLower q))) ++
        L.filter (isContainsFor (jsTrim (jsToLower q))) ++
        L.filter (isOtherFor (jsTrim (jsToLower q))) := by
  have h0 : prioritizeExactMatches L q =
      (rankBuckets L q).exactMatches ++ (rankBuckets L q).startsWithMatches ++
        (rankBuckets L q).containsMatches ++ (rankBuckets L q).otherMatches := rfl
  rw [h0, rankBuckets_eq]

theorem count_filter_pos {α : Type} [DecidableEq α] {p : α → Bool} {a : α}
    (h : p a = true) (l : List α) : List.count a (l.filter p) = List.count a l :=
  List.count_filter h

theorem count_filter_neg {α : Type} [DecidableEq α] {p : α → Bool} {a : α}
    (h : p a = false) (l : List α) : List.count a (l.filter p) = 0 :=
  List.count_eq_zero_of_not_mem (by simp [List.mem_filter, h])

theorem perm_tiers (nq : String) (L : List Component) :
    L.Perm (L.filter (isExactFor nq) ++ L.filter (isStartsFor nq) ++
      L.filter (isContainsFor nq) ++ L.filter (isOtherFor nq)) := by
  rw [List.perm_iff_count]
  intro a
  simp only [List.count_append]
  cases he : isExactFor nq a with
  | true =>
    have h2 : isStartsFor nq a = false := by simp [isStartsFor, he]
    have h3 : isContainsFor nq a = false := by simp [isContainsFor, he]
    have h4 : isOtherFor nq a = false := by simp [isOtherFor, he]
    rw [count_filter_pos he, count_filter_neg h2, count_filter_neg h3, count_filter_neg h4]
    omega
  | false =>
    cases hs : jsStartsWith (jsToLower a.name) nq with
    | true =>
      have h2 : isStartsFor nq a = true := by simp [isStartsFor, he, hs]
      have h3 : isContainsFor nq a = false := by simp [isContainsFor, hs]
      have h4 : isOtherFor nq a = false := by simp [isOtherFor, hs]
      rw [count_filter_neg he, count_filter_pos h2, count_filter_neg h3, count_filter_neg h4]
      omega
    | false =>
      cases hi : jsIncludes (jsToLower a.name) nq with
      | true =>
        have h2 : isStartsFor nq a = false := by simp [isStartsFor, hs]
        have h3 : isContainsFor nq a = true := by simp [isContainsFor, he, hs, hi]
        have h4 : isOtherFor nq a = false := by simp [isOtherFor, hi]
        rw [count_filter_neg he, count_filter_neg h2, count_filter_pos h3, count_filter_neg h4]
        omega
      | false =>
        have h2 : isStartsFor nq a = false := by simp [isStartsFor, hs]
        have h3 : isContainsFor nq a = false := by simp [isContainsFor, hi]
        have h4 : isOtherFor nq a = true := by simp [isOtherFor, he, hs, hi]
        rw [count_filter_neg he, count_filter_neg h2, count_filter_neg h3, count_filter_pos h4]
        omega

theorem rank_perm (L : List Component) (q : String) : (rank L q).Perm L := by
  cases h : (jsTrim q).isEmpty with
  | true => simp [rank, applyFilters, h]
  | false =>
    have hr : rank L q = prioritizeExactMatches L q := by simp [rank, applyFilters, h]
    rw [hr, prioritizeExactMatches_eq]
    exact (perm_tiers (jsTrim (jsToLower q)) L).symm

theorem getElem_pred_lt {α : Type} (R X Y : List α) (hR : R = X ++ Y) (P Q : α → Bool)
    (hPY : ∀ a ∈ Y, P a = false) (hQX : ∀ a ∈ X, Q a = false)
    (i j : Nat) (hi : i < R.length) (hj : j < R.length)
    (hPi : P (R[i]) = true) (hQj : Q (R[j]) = true) : i < j := by
  subst hR
  have hiX : i < X.length := by
    by_contra hc
    push_neg at hc
    have hlen : i - X.length < Y.length := by
      rw [List.length_append] at hi; omega
    have he : (X ++ Y)[i] = Y[i - X.length] := List.getElem_append_right hc
    rw [he, hPY _ (List.getElem_mem hlen)] at hPi
    simp at hPi
  have hjX : X.length ≤ j := by
    by_contra hc
    push_neg at hc
    have he : (X ++ Y)[j] = X[j] := List.getElem_append_left hc
    rw [he, hQX _ (List.getElem_mem hc)] at hQj
    simp at hQj
  omega

theorem splitChar_ne_nil (m : Char) (l : List Char) : splitChar m l ≠ [] := by
  induction l with
  | nil => simp [splitChar]
  | cons c cs ih =>
    simp only [splitChar]
    cases h : splitChar m cs with
    | nil => simp
    | cons r rs => by_cases hc : c = m <;> simp [hc]

theorem splitChar_length (m : Char) (l : List Char) :
    (splitChar m l).length = l.count m + 1 := by
  induction l with
  | nil => simp [splitChar]
  | cons c cs ih =>
    simp only [splitChar]
    cases h : splitChar m cs with
    | nil => exact absurd h (splitChar_ne_nil m cs)
    | cons r rs =>
      rw [h] at ih
      by_cases hc : c = m
      · subst hc
        show (if c = c then ([] : List Char) :: r :: rs else (c :: r) :: rs).length =
          List.count c (c :: cs) + 1
        rw [if_pos rfl, List.count_cons_self]
        simp only [List.length_cons] at ih ⊢
        omega
      · show (if c = m then ([] : List Char) :: r :: rs else (c :: r) :: rs).length =
          List.count m (c :: cs) + 1
        rw [if_neg hc, List.count_cons_of_ne (fun hmc => hc hmc.symm)]
        simp only [List.length_cons] at ih ⊢
        omega

theorem jsSplit_length (s : String) (m : Char) :
    (jsSplit s m).length = s.toList.count m + 1 := by
  simp [jsSplit, splitChar_length]

theorem jsIncludes_taka_of_mem {s : String} (h : '৳' ∈ s.toList) :
    jsIncludes s "৳" = true := by
  obtain ⟨l1, l2, heq⟩ := List.append_of_mem h
  apply decide_eq_true
  show ("৳").toList <:+: s.toList
  have ht : ("৳").toList = ['৳'] := by decide
  exact ⟨l1, l2, by rw [ht, heq]; simp⟩

theorem filter_self_of (l : List Component) (p : Component → Bool) :
    (l.filter p).filter p = l.filter p :=
  List.filter_eq_self.mpr (fun _ ha => (List.mem_filter.mp ha).2)

theorem filter_nil_of {p r : Component → Bool} (l : List Component)
    (h : ∀ a, r a = true → p a = false) : (l.filter r).filter p = [] :=
  List.filter_eq_nil_iff.mpr (fun a ha => by
    rw [h a (List.mem_filter.mp ha).2]; simp)

/-- C1 counterexample: two items with the same name "RTX 4060" (equal to the
normalized query) and the same source "Startech" are both placed in the tier-1
exactMatches bucket of rank, contradicting the claim that only the first such item
(per source) lands in tier 1 and the second is re-evaluated against tiers 2 to 4. -/
theorem c1_per_source_cap_counterexample :
    (⟨"RTX 4060", "2", "", "In Stock", "Startech", ""⟩ : Component) ∈
      (rankBuckets
        [⟨"RTX 4060", "1", "", "In Stock", "Startech", ""⟩,
         ⟨"RTX 4060", "2", "", "In Stock", "Startech", ""⟩] "RTX 4060").exactMatches ∧
    (rankBuckets
      [⟨"RTX 4060", "1", "", "In Stock", "Startech", ""⟩,
       ⟨"RTX 4060", "2", "", "In Stock", "Startech", ""⟩] "RTX 4060").exactMatches =
      [⟨"RTX 4060", "1", "", "In Stock", "Startech", ""⟩,
       ⟨"RTX 4060", "2", "", "In Stock", "Startech", ""⟩] := by decide

/-- C1 (amended): the tier-1 exactMatches bucket of rank contains every item whose
lower-cased name equals the normalized query, in input order and with no per-source
cap; the first pass already pushes all exact matches, so the second-pass per-source
re-evaluation never removes or demotes one. -/
theorem c1_tier1_contains_all_exact (L : List Component) (q : String) :
    (rankBuckets L q).exactMatches = L.filter (isExactFor (jsTrim (jsToLower q))) := by
  rw [rankBuckets_eq]

/-- C2: for every item list and every query, rank preserves the length of the list
and returns a permutation of it: no item is dropped or duplicated. -/
theorem c2_rank_conservation (L : List Component) (q : String) :
    (rank L q).length = L.length ∧ (rank L q).Perm L :=
  ⟨(rank_perm L q).length_eq, rank_perm L q⟩

/-- C3 counterexample: with two same-source exact matches surrounding a starts-with
item, rank does not equal the concatenation of the four tiers as worded by the spec
(specRank, whose tier 1 is capped per source): the code emits the duplicate exact
match before the starts-with item, the spec wording after it. -/
theorem c3_tier_concat_counterexample :
    rank
      [⟨"RTX 4060", "1", "", "In Stock", "Startech", ""⟩,
       ⟨"RTX 4060 Ti", "2", "", "In Stock", "Techland", ""⟩,
       ⟨"RTX 4060", "3", "", "In Stock", "Startech", ""⟩] "RTX 4060" =
      [⟨"RTX 4060", "1", "", "In Stock", "Startech", ""⟩,
       ⟨"RTX 4060", "3", "", "In Stock", "Startech", ""⟩,
       ⟨"RTX 4060 Ti", "2", "", "In Stock", "Techland", ""⟩] ∧
    specRank
      [⟨"RTX 4060", "1", "", "In Stock", "Startech", ""⟩,
       ⟨"RTX 4060 Ti", "2", "", "In Stock", "Techland", ""⟩,
       ⟨"RTX 4060", "3", "", "In Stock", "Startech", ""⟩] "RTX 4060" =
      [⟨"RTX 4060", "1", "", "In Stock", "Startech", ""⟩,
       ⟨"RTX 4060 Ti", "2", "", "In Stock", "Techland", ""⟩,
       ⟨"RTX 4060", "3", "", "In Stock", "Startech", ""⟩] ∧
    rank
      [⟨"RTX 4060", "1", "", "In Stock", "Startech", ""⟩,
       ⟨"RTX 4060 Ti", "2", "", "In Stock", "Techland", ""⟩,
       ⟨"RTX 4060", "3", "", "In Stock", "Startech", ""⟩] "RTX 4060" ≠
    specRank
      [⟨"RTX 4060", "1", "", "In Stock", "Startech", ""⟩,
       ⟨"RTX 4060 Ti", "2", "", "In Stock", "Techland", ""⟩,
       ⟨"RTX 4060", "3", "", "In Stock", "Startech", ""⟩] "RTX 4060" := by decide

/-- C3 (amended): for a non-blank query the output of rank is the concatenation of
the exact tier (all exact matches, with no per-source cap), the starts-with tier,
the contains tier and the other tier, each tier being a filter of the input and
hence preserving relative input order; in particular every exact-match item
precedes every contains-only item in the output. -/
theorem c3_rank_tier_concat (L : List Component) (q : String)
    (h : (jsTrim q).isEmpty = false) :
    rank L q =
      L.filter (isExactFor (jsTrim (jsToLower q))) ++
        L.filter (isStartsFor (jsTrim (jsToLower q))) ++
        L.filter (isContainsFor (jsTrim (jsToLower q))) ++
        L.filter (isOtherFor (jsTrim (jsToLower q))) ∧
    (∀ i j (hi : i < (rank L q).length) (hj : j < (rank L q).length),
      isExactFor (jsTrim (jsToLower q)) ((rank L q)[i]) = true →
      isContainsFor (jsTrim (jsToLower q)) ((rank L q)[j]) = true → i < j) := by
  have hr : rank L q = prioritizeExactMatches L q := by simp [rank, applyFilters, h]
  have hp := prioritizeExactMatches_eq L q
  refine ⟨by rw [hr, hp], ?_⟩
  intro i j hi hj hPi hQj
  refine getElem_pred_lt (rank L q)
    (L.filter (isExactFor (jsTrim (jsToLower q))) ++
      L.filter (isStartsFor (jsTrim (jsToLower q))))
    (L.filter (isContainsFor (jsTrim (jsToLower q))) ++
      L.filter (isOtherFor (jsTrim (jsToLower q))))
    (by rw [hr, hp]; simp [List.append_assoc])
    (isExactFor (jsTrim (jsToLower q))) (isContainsFor (jsTrim (jsToLower q)))
    ?_ ?_ i j hi hj hPi hQj
  · intro a ha
    rcases List.mem_append.mp ha with hmem | hmem
    · exact (isContainsFor_true_iff.mp (List.mem_filter.mp hmem).2).1
    · exact (isOtherFor_true_iff.mp (List.mem_filter.mp hmem).2).1
  · intro a ha
    rcases List.mem_append.mp ha with hmem | hmem
    · have hx := (List.mem_filter.mp hmem).2
      simp only [isExactFor] at hx
      simp [isContainsFor, isExactFor, hx]
    · have hx := (List.mem_filter.mp hmem).2
      have hsw := (isStartsFor_true_iff.mp hx).2
      simp [isContainsFor, hsw]

/-- C4: when the query is empty or blank after trimming, rank returns the item
list unchanged, in the same order. -/
theorem c4_rank_blank_query (L : List Component) (q : String)
    (h : (jsTrim q).isEmpty = true) : rank L q = L := by
  simp [rank, applyFilters, h]

/-- C4 witness: instantiated at a one-item list and a whitespace-only query. -/
theorem c4_rank_blank_query_witness :
    (jsTrim "   ").isEmpty = true ∧
      rank [⟨"RTX 4060", "1", "", "In Stock", "Startech", ""⟩] "   " =
        [⟨"RTX 4060", "1", "", "In Stock", "Startech", ""⟩] :=
  ⟨by decide, c4_rank_blank_query _ _ (by decide)⟩

/-- C5 counterexample: an item whose name differs from the query only by letter
case and a trailing whitespace character agrees with the query after the spec's
both-sides normalization, yet rank does not classify it as exact (item names are
never trimmed in the code); it lands in the starts-with tier instead. -/
theorem c5_normalization_counterexample :
    specNormalize "Ryzen 5 5600X " = specNormalize "ryzen 5 5600x" ∧
    (⟨"Ryzen 5 5600X ", "1", "", "In Stock", "Startech", ""⟩ : Component) ∉
      (rankBuckets [⟨"Ryzen 5 5600X ", "1", "", "In Stock", "Startech", ""⟩]
        "ryzen 5 5600x").exactMatches ∧
    (⟨"Ryzen 5 5600X ", "1", "", "In Stock", "Startech", ""⟩ : Component) ∈
      (rankBuckets [⟨"Ryzen 5 5600X ", "1", "", "In Stock", "Startech", ""⟩]
        "ryzen 5 5600x").startsWithMatches := by decide

/-- C5 (amended): rank trims and lower-cases the query but only lower-cases item
names; every item in the list whose lower-cased (untrimmed) name equals the
trimmed lower-cased query is classified into the exact tier, so case differences
and whitespace around the query are ignored, whitespace around the name is not. -/
theorem c5_exact_of_lowered_name (L : List Component) (q : String) (c : Component)
    (hc : c ∈ L) (hn : jsToLower c.name = jsTrim (jsToLower q)) :
    c ∈ (rankBuckets L q).exactMatches := by
  rw [rankBuckets_eq]
  exact List.mem_filter.mpr ⟨hc, by simp [isExactFor, hn]⟩

/-- C5 witness: the Ryzen item of the spec's example, with the padded mixed-case
query, is classified exact. -/
theorem c5_exact_of_lowered_name_witness :
    jsToLower "Ryzen 5 5600X" = jsTrim (jsToLower " ryzen 5 5600x ") ∧
    (⟨"Ryzen 5 5600X", "1", "", "In Stock", "Startech", ""⟩ : Component) ∈
      (rankBuckets [⟨"Ryzen 5 5600X", "1", "", "In Stock", "Startech", ""⟩]
        " ryzen 5 5600x ").exactMatches :=
  ⟨by decide, c5_exact_of_lowered_name _ _ _ (by decide) (by decide)⟩

/-- C6: categorize partitions its input into the three display buckets: exact
holds every item (with multiplicity, not deduplicated per source) whose
lower-cased name equals the lower-cased query, similar exactly the items whose
lower-cased name starts with the query without being equal to it, and other
exactly the remaining items; concatenated they are a permutation of the input. -/
theorem c6_categorize_buckets (items : List Component) (q : String) :
    ((categorize items q).1 ++ (categorize items q).2.1 ++ (categorize items q).2.2).Perm
      items ∧
    (∀ c, c ∈ (categorize items q).1 ↔ c ∈ items ∧ jsToLower c.name = jsToLower q) ∧
    (∀ c, c ∈ (categorize items q).2.1 ↔
      c ∈ items ∧ jsStartsWith (jsToLower c.name) (jsToLower q) = true ∧
        jsToLower c.name ≠ jsToLower q) ∧
    (∀ c, c ∈ (categorize items q).2.2 ↔
      c ∈ items ∧ jsStartsWith (jsToLower c.name) (jsToLower q) = false ∧
        jsToLower c.name ≠ jsToLower q) ∧
    (∀ c, jsToLower c.name = jsToLower q →
      List.count c (categorize items q).1 = List.count c items) := by
  refine ⟨?_, ?_, ?_, ?_, ?_⟩
  · rw [List.perm_iff_count]
    intro a
    simp only [categorize, List.count_append]
    cases he : (jsToLower a.name == jsToLower q) with
    | true =>
      have h1 : (fun c : Component => jsToLower c.name == jsToLower q) a = true := he
      have h2 : (fun c : Component => jsStartsWith (jsToLower c.name) (jsToLower q) &&
          !(jsToLower c.name == jsToLower q)) a = false := by simp [he]
      have h3 : (fun c : Component => !(jsStartsWith (jsToLower c.name) (jsToLower q)) &&
          !(jsToLower c.name == jsToLower q)) a = false := by simp [he]
      rw [@count_filter_pos Component _ (fun c : Component => jsToLower c.name == jsToLower q) a h1 items,
        @count_filter_neg Component _ (fun c : Component => jsStartsWith (jsToLower c.name) (jsToLower q) && !(jsToLower c.name == jsToLower q)) a h2 items,
        @count_filter_neg Component _ (fun c : Component => !(jsStartsWith (jsToLower c.name) (jsToLower q)) && !(jsToLower c.name == jsToLower q)) a h3 items]
      omega
    | false =>
      cases hs : jsStartsWith (jsToLower a.name) (jsToLower q) with
      | true =>
        have h1 : (fun c : Component => jsToLower c.name == jsToLower q) a = false := he
        have h2 : (fun c : Component => jsStartsWith (jsToLower c.name) (jsToLower q) &&
            !(jsToLower c.name == jsToLower q)) a = true := by simp [he, hs]
        have h3 : (fun c : Component => !(jsStartsWith (jsToLower c.name) (jsToLower q)) &&
            !(jsToLower c.name == jsToLower q)) a = false := by simp [hs]
        rw [@count_filter_neg Component _ (fun c : Component => jsToLower c.name == jsToLower q) a h1 items,
          @count_filter_pos Component _ (fun c : Component => jsStartsWith (jsToLower c.name) (jsToLower q) && !(jsToLower c.name == jsToLower q)) a h2 items,
          @count_filter_neg Component _ (fun c : Component => !(jsStartsWith (jsToLower c.name) (jsToLower q)) && !(jsToLower c.name == jsToLower q)) a h3 items]
        omega
      | false =>
        have h1 : (fun c : Component => jsToLower c.name == jsToLower q) a = false := he
        have h2 : (fun c : Component => jsStartsWith (jsToLower c.name) (jsToLower q) &&
            !(jsToLower c.name == jsToLower q)) a = false := by simp [hs]
        have h3 : (fun c : Component => !(jsStartsWith (jsToLower c.name) (jsToLower q)) &&
            !(jsToLower c.name == jsToLower q)) a = true := by simp [he, hs]
        rw [@count_filter_neg Component _ (fun c : Component => jsToLower c.name == jsToLower q) a h1 items,
          @count_filter_neg Component _ (fun c : Component => jsStartsWith (jsToLower c.name) (jsToLower q) && !(jsToLower c.name == jsToLower q)) a h2 items,
          @count_filter_pos Component _ (fun c : Component => !(jsStartsWith (jsToLower c.name) (jsToLower q)) && !(jsToLower c.name == jsToLower q)) a h3 items]
        omega
  · intro c
    simp [categorize, List.mem_filter]
  · intro c
    simp [categorize, List.mem_filter, and_assoc]
  · intro c
    simp [categorize, List.mem_filter, and_assoc]
  · intro c hn
    have hp : (fun x : Component => jsToLower x.name == jsToLower q) c = true := by simp [hn]
    exact @count_filter_pos Component _ (fun x : Component => jsToLower x.name == jsToLower q) c hp items

/-- C7: the Ranker is total: on the empty item list rank yields the empty list and
categorize yields three empty lists for every query; rank always yields a list of
the input's length, and an item whose name and source are empty strings is simply
carried through. -/
theorem c7_ranker_total :
    (∀ q : String, rank [] q = [] ∧ categorize [] q = ([], [], []) ∧
      ∀ L : List Component, (rank L q).length = L.length) ∧
    rank [⟨"", "", "", "", "", ""⟩] "RTX 4060" = [⟨"", "", "", "", "", ""⟩] := by
  constructor
  · intro q
    refine ⟨?_, rfl, fun L => (rank_perm L q).length_eq⟩
    cases h : (jsTrim q).isEmpty with
    | true => simp [rank, applyFilters, h]
    | false =>
      have hp : prioritizeExactMatches [] q = [] := by
        rw [prioritizeExactMatches_eq]
        simp
      simp [rank, applyFilters, h, hp]
  · decide

/-- C8 counterexample: in the price string used as the example in the code's own
comment, the currency marker occurs exactly twice, not more than twice, yet the
dual-price rendering path is taken; the claim's threshold of more than two marker
occurrences is therefore wrong. -/
theorem c8_price_marker_counterexample :
    "৳ 12,500 ৳ 13,000".toList.count '৳' = 2 ∧
    ¬("৳ 12,500 ৳ 13,000".toList.count '৳' > 2) ∧
    renderPrice "৳ 12,500 ৳ 13,000" = PriceDisplay.dual "12,500" "13,000" := by decide

/-- C8 (amended): the dual-price path is taken exactly when the marker occurs at
least twice (equivalently, splitting yields more than two segments) and at least
two split segments are non-blank after trimming; the first two such segments are
then shown trimmed as the current and the struck-through original price, and a
string with at most one marker is displayed verbatim. -/
theorem c8_render_price_split (p : String) :
    (p.toList.count '৳' ≤ 1 → renderPrice p = PriceDisplay.plain p) ∧
    (2 ≤ p.toList.count '৳' →
      ((jsSplit p '৳').filter (fun seg => !(jsTrim seg).isEmpty)).length < 2 →
      renderPrice p = PriceDisplay.plain p) ∧
    (2 ≤ p.toList.count '৳' →
      2 ≤ ((jsSplit p '৳').filter (fun seg => !(jsTrim seg).isEmpty)).length →
      renderPrice p =
        PriceDisplay.dual
          (jsTrim (((jsSplit p '৳').filter (fun seg => !(jsTrim seg).isEmpty)).getD 0 ""))
          (jsTrim (((jsSplit p '৳').filter (fun seg => !(jsTrim seg).isEmpty)).getD 1 ""))) := by
  refine ⟨?_, ?_, ?_⟩
  · intro h1
    have hlen : ¬((jsSplit p '৳').length > 2) := by rw [jsSplit_length]; omega
    have hguard : (jsIncludes p "৳" && decide ((jsSplit p '৳').length > 2)) = false := by
      simp [hlen]
    simp [renderPrice, hguard]
  · intro h2 hseg
    have hmem : '৳' ∈ p.toList := List.count_pos_iff.mp (by omega)
    have hinc := jsIncludes_taka_of_mem hmem
    have hlen : (jsSplit p '৳').length > 2 := by rw [jsSplit_length]; omega
    have hguard : (jsIncludes p "৳" && decide ((jsSplit p '৳').length > 2)) = true := by
      simp [hinc, hlen]
    have hseg2 : ¬(2 ≤ ((jsSplit p '৳').filter (fun seg => !(jsTrim seg).isEmpty)).length) := by
      omega
    simp [renderPrice, hguard, hseg2]
  · intro h2 hseg
    have hmem : '৳' ∈ p.toList := List.count_pos_iff.mp (by omega)
    have hinc := jsIncludes_taka_of_mem hmem
    have hlen : (jsSplit p '৳').length > 2 := by rw [jsSplit_length]; omega
    have hguard : (jsIncludes p "৳" && decide ((jsSplit p '৳').length > 2)) = true := by
      simp [hinc, hlen]
    simp [renderPrice, hguard, hseg]

/-- C8 witness: the amended dual-price branch applied to a concrete two-marker
price string. -/
theorem c8_render_price_split_witness :
    2 ≤ "৳ 1 ৳ 2".toList.count '৳' ∧
    2 ≤ ((jsSplit "৳ 1 ৳ 2" '৳').filter (fun seg => !(jsTrim seg).isEmpty)).length ∧
    renderPrice "৳ 1 ৳ 2" = PriceDisplay.dual "1" "2" := by
  refine ⟨by decide, by decide, ?_⟩
  have h := (c8_render_price_split "৳ 1 ৳ 2").2.2 (by decide) (by decide)
  exact h.trans (by decide)

/-- C9: addToCompare keeps the compare list a set keyed by name and source:
pairwise key-distinctness is preserved, adding a product whose key is already
present leaves the list unchanged, and adding a product with a fresh key appends
it at the end. -/
theorem c9_add_to_compare_set (l : List Product) (p : Product)
    (hdist : l.Pairwise (fun a b => ¬(a.name = b.name ∧ a.source = b.source))) :
    (addToCompare l p).Pairwise (fun a b => ¬(a.name = b.name ∧ a.source = b.source)) ∧
    ((∃ it ∈ l, it.name = p.name ∧ it.source = p.source) → addToCompare l p = l) ∧
    ((∀ it ∈ l, ¬(it.name = p.name ∧ it.source = p.source)) →
      addToCompare l p = l ++ [p]) := by
  by_cases h : l.any (fun item => item.name == p.name && item.source == p.source) = true
  · have heq : addToCompare l p = l := by simp [addToCompare, h]
    refine ⟨by rw [heq]; exact hdist, fun _ => heq, fun hall => ?_⟩
    exfalso
    obtain ⟨x, hx, hxe⟩ := List.any_eq_true.mp h
    simp only [Bool.and_eq_true, beq_iff_eq] at hxe
    exact hall x hx hxe
  · have hb : l.any (fun item => item.name == p.name && item.source == p.source) = false := by
      simpa using h
    have heq : addToCompare l p = l ++ [p] := by simp [addToCompare, hb]
    have hnone : ∀ it ∈ l, ¬(it.name = p.name ∧ it.source = p.source) := by
      intro it hit hcon
      exact h (List.any_eq_true.mpr ⟨it, hit, by simp [hcon.1, hcon.2]⟩)
    refine ⟨?_, fun hex => ?_, fun _ => heq⟩
    · rw [heq, List.pairwise_append]
      refine ⟨hdist, by simp, ?_⟩
      intro a ha b hb2
      have hbp : b = p := by simpa using hb2
      subst hbp
      exact hnone a ha
    · exfalso
      obtain ⟨it, hit, h1, h2⟩ := hex
      exact hnone it hit ⟨h1, h2⟩

/-- C9 witness: a one-element distinct compare list with a fresh product appended. -/
theorem c9_add_to_compare_set_witness :
    addToCompare [⟨"RTX 4060", "1", "", "In Stock", "Startech", ""⟩]
        ⟨"RTX 4060", "2", "", "In Stock", "Techland", ""⟩ =
      [⟨"RTX 4060", "1", "", "In Stock", "Startech", ""⟩,
       ⟨"RTX 4060", "2", "", "In Stock", "Techland", ""⟩] := by
  have h := (c9_add_to_compare_set
    [⟨"RTX 4060", "1", "", "In Stock", "Startech", ""⟩]
    ⟨"RTX 4060", "2", "", "In Stock", "Techland", ""⟩ (by simp)).2.2 (by decide)
  simpa using h

/-- C10: prioritizeExactMatches is idempotent for every item list and every query:
ranking an already-ranked list with the same query changes nothing. -/
theorem c10_prioritize_idempotent (L : List Component) (q : String) :
    prioritizeExactMatches (prioritizeExactMatches L q) q = prioritizeExactMatches L q := by
  have hMM := prioritizeExactMatches_eq (prioritizeExactMatches L q) q
  have hM := prioritizeExactMatches_eq L q
  rw [hMM, hM]
  simp only [List.filter_append]
  have hes : ∀ a, isStartsFor (jsTrim (jsToLower q)) a = true →
      isExactFor (jsTrim (jsToLower q)) a = false :=
    fun a ha => (isStartsFor_true_iff.mp ha).1
  have hec : ∀ a, isContainsFor (jsTrim (jsToLower q)) a = true →
      isExactFor (jsTrim (jsToLower q)) a = false :=
    fun a ha => (isContainsFor_true_iff.mp ha).1
  have heo : ∀ a, isOtherFor (jsTrim (jsToLower q)) a = true →
      isExactFor (jsTrim (jsToLower q)) a = false :=
    fun a ha => (isOtherFor_true_iff.mp ha).1
  have hse : ∀ a, isExactFor (jsTrim (jsToLower q)) a = true →
      isStartsFor (jsTrim (jsToLower q)) a = false :=
    fun a ha => by simp [isStartsFor, ha]
  have hsc : ∀ a, isContainsFor (jsTrim (jsToLower q)) a = true →
      isStartsFor (jsTrim (jsToLower q)) a = false :=
    fun a ha => by simp [isStartsFor, (isContainsFor_true_iff.mp ha).2.1]
  have hso : ∀ a, isOtherFor (jsTrim (jsToLower q)) a = true →
      isStartsFor (jsTrim (jsToLower q)) a = false :=
    fun a ha => by simp [isStartsFor, (isOtherFor_true_iff.mp ha).2.1]
  have hce : ∀ a, isExactFor (jsTrim (jsToLower q)) a = true →
      isContainsFor (jsTrim (jsToLower q)) a = false :=
    fun a ha => by simp [isContainsFor, ha]
  have hcs : ∀ a, isStartsFor (jsTrim (jsToLower q)) a = true →
      isContainsFor (jsTrim (jsToLower q)) a = false :=
    fun a ha => by simp [isContainsFor, (isStartsFor_true_iff.mp ha).2]
  have hco : ∀ a, isOtherFor (jsTrim (jsToLower q)) a = true →
      isContainsFor (jsTrim (jsToLower q)) a = false :=
    fun a ha => by simp [isContainsFor, (isOtherFor_true_iff.mp ha).2.2]
  have hoe : ∀ a, isExactFor (jsTrim (jsToLower q)) a = true →
      isOtherFor (jsTrim (jsToLower q)) a = false :=
    fun a ha => by simp [isOtherFor, ha]
  have hos : ∀ a, isStartsFor (jsTrim (jsToLower q)) a = true →
      isOtherFor (jsTrim (jsToLower q)) a = false :=
    fun a ha => by simp [isOtherFor, (isStartsFor_true_iff.mp ha).2]
  have hoc : ∀ a, isContainsFor (jsTrim (jsToLower q)) a = true →
      isOtherFor (jsTrim (jsToLower q)) a = false :=
    fun a ha => by simp [isOtherFor, (isContainsFor_true_iff.mp ha).2.2]
  simp only [filter_self_of, filter_nil_of _ hes, filter_nil_of _ hec, filter_nil_of _ heo,
    filter_nil_of _ hse, filter_nil_of _ hsc, filter_nil_of _ hso,
    filter_nil_of _ hce, filter_nil_of _ hcs, filter_nil_of _ hco,
    filter_nil_of _ hoe, filter_nil_of _ hos, filter_nil_of _ hoc,
    List.append_nil, List.nil_append]

/-- C3 witness: the spec's concrete scenario (exact, starts-with, contains) ranked
through the amended tier concatenation. -/
theorem c3_rank_tier_concat_witness :
    (jsTrim "RTX 4060").isEmpty = false ∧
    rank
      [⟨"RTX 4060", "1", "", "In Stock", "Startech", ""⟩,
       ⟨"RTX 4060 Ti", "2", "", "In Stock", "Techland", ""⟩,
       ⟨"ASUS RTX 4060", "3", "", "In Stock", "PC House", ""⟩] "RTX 4060" =
      [⟨"RTX 4060", "1", "", "In Stock", "Startech", ""⟩,
       ⟨"RTX 4060 Ti", "2", "", "In Stock", "Techland", ""⟩,
       ⟨"ASUS RTX 4060", "3", "", "In Stock", "PC House", ""⟩] :=
  ⟨by decide,
    ((c3_rank_tier_concat
      [⟨"RTX 4060", "1", "", "In Stock", "Startech", ""⟩,
       ⟨"RTX 4060 Ti", "2", "", "In Stock", "Techland", ""⟩,
       ⟨"ASUS RTX 4060", "3", "", "In Stock", "PC House", ""⟩] "RTX 4060"
      (by decide)).1).trans (by decide)⟩

/-- C6 witness: two identical same-source exact matches both counted in the exact
bucket of categorize. -/
theorem c6_categorize_buckets_witness :
    jsToLower (Component.name ⟨"RTX 4060", "1", "", "In Stock", "Startech", ""⟩) =
      jsToLower "RTX 4060" ∧
    List.count (⟨"RTX 4060", "1", "", "In Stock", "Startech", ""⟩ : Component)
        (categorize
          [⟨"RTX 4060", "1", "", "In Stock", "Startech", ""⟩,
           ⟨"RTX 4060", "1", "", "In Stock", "Startech", ""⟩] "RTX 4060").1 =
      List.count (⟨"RTX 4060", "1", "", "In Stock", "Startech", ""⟩ : Component)
        [⟨"RTX 4060", "1", "", "In Stock", "Startech", ""⟩,
         ⟨"RTX 4060", "1", "", "In Stock", "Startech", ""⟩] :=
  ⟨by decide,
    (c6_categorize_buckets
      [⟨"RTX 4060", "1", "", "In Stock", "Startech", ""⟩,
       ⟨"RTX 4060", "1", "", "In Stock", "Startech", ""⟩] "RTX 4060").2.2.2.2
      ⟨"RTX 4060", "1", "", "In Stock", "Startech", ""⟩ (by decide)⟩
